import Mathlib

/-!
Verification of the region-detection, mask-geometry and text-fitting engine
of the certificate mass-production tool (`src/main.py`).

Conventions used throughout this development:

* Python's machine integers are modelled as `ℤ`; Python's `//` (floor
  division) is `Int.fdiv`.  All division operands that occur in the code are
  nonnegative, where truncating `int(...)` and floor division agree.
* The float constants `0.08, 0.3, 0.6, 0.7, 0.8, 1.5, 0.003, 0.15, 0.2, 5`
  used by the code are modelled by exact rational arithmetic (integer
  cross-multiplication); i.e. `int(x * 0.8)` becomes `(8 * x).fdiv 10`.
* Qt's `QRect(x, y, w, h)` is a record of four integers; its closed integer
  coordinates run from `x` to `x + w - 1`.  `intersects`, `united`,
  `contains` and `adjust` below follow Qt's semantics for rectangles of
  positive size, which is the only way they are used by the program.
* Font measurements (`QFontMetrics`) are external to the repository; they
  are modelled as an abstract `FontMetricsModel` parameter with
  `boundingRect` width, `horizontalAdvance`, ascent and descent, exactly
  the four quantities the code reads.
-/

namespace CertTool

/-- Python `//` floor division on integers. -/
def pyFloorDiv (a b : ℤ) : ℤ := Int.fdiv a b

/-- `QRect` in integer coordinates: origin `(x, y)`, size `w × h`. -/
structure Rect where
  x : ℤ
  y : ℤ
  w : ℤ
  h : ℤ
deriving DecidableEq, Repr

/-- `QRect.adjust(-10, -10, 10, 10)`: grow the rectangle by 10 px on each
side (`detect_blank_regions_cv`, merge step). -/
def expand10 (r : Rect) : Rect := ⟨r.x - 10, r.y - 10, r.w + 20, r.h + 20⟩

/-- `QRect.intersects` for rectangles of positive size: at least one integer
pixel lies in both. -/
def rintersects (a b : Rect) : Bool :=
  decide (a.x ≤ b.x + b.w - 1 ∧ b.x ≤ a.x + a.w - 1 ∧
          a.y ≤ b.y + b.h - 1 ∧ b.y ≤ a.y + a.h - 1)

/-- `QRect.united` for non-empty rectangles: the bounding box of both. -/
def runited (a b : Rect) : Rect :=
  ⟨min a.x b.x, min a.y b.y,
   max (a.x + a.w) (b.x + b.w) - min a.x b.x,
   max (a.y + a.h) (b.y + b.h) - min a.y b.y⟩

/-- Reading order used by `sort_rects_reading_order`: top y first, then
left x. -/
def ReadingLE (a b : Rect) : Prop := a.y < b.y ∨ (a.y = b.y ∧ a.x ≤ b.x)

instance : DecidableRel ReadingLE := fun a b => by
  unfold ReadingLE; infer_instance

instance : IsTotal Rect ReadingLE where
  total a b := by
    unfold ReadingLE
    rcases lt_trichotomy a.y b.y with h | h | h
    · exact Or.inl (Or.inl h)
    · rcases le_total a.x b.x with hx | hx
      · exact Or.inl (Or.inr ⟨h, hx⟩)
      · exact Or.inr (Or.inr ⟨h.symm, hx⟩)
    · exact Or.inr (Or.inl h)

instance : IsTrans Rect ReadingLE where
  trans a b c hab hbc := by
    unfold ReadingLE at *
    rcases hab with h | ⟨hy, hx⟩
    · rcases hbc with h' | ⟨hy', _⟩
      · exact Or.inl (h.trans h')
      · exact Or.inl (hy' ▸ h)
    · rcases hbc with h' | ⟨hy', hx'⟩
      · exact Or.inl (hy ▸ h')
      · exact Or.inr ⟨hy.trans hy', hx.trans hx'⟩

/-- `sort_rects_reading_order`: Python's stable sort by key `(r.y(), r.x())`,
modelled by the (stable) insertion sort. -/
def sortReading (l : List Rect) : List Rect := List.insertionSort ReadingLE l

/-- One step of the merge loop of `detect_blank_regions_cv`: try to unite `r`
into the first already-merged rectangle whose 10 px expansion it intersects;
otherwise append it. -/
def mergeInsert : List Rect → Rect → List Rect
  | [], r => [r]
  | m :: rest, r =>
      if rintersects r (expand10 m) then runited m r :: rest
      else m :: mergeInsert rest r

/-- The merge stage of `detect_blank_regions_cv` (lines 145-158): a single
pass over the rectangles in reading order. -/
def mergeStep (rects : List Rect) : List Rect :=
  (sortReading rects).foldl mergeInsert []

/-- Python `final_rects[:m]` (list slicing, including negative stops). -/
def pySlice (l : List Rect) (m : ℤ) : List Rect :=
  if 0 ≤ m then l.take m.toNat else l.take (l.length - m.natAbs)

/-- The per-contour filter-and-pad stage of `detect_blank_regions_cv`
(lines 113-143).  `w, h` are the image dimensions and `roiBright c` stands
for the pixel-data test `np.sum(roi > 200) / roi.size >= 0.4` (the enhanced
grayscale contents are external data, abstracted as a predicate on the
candidate); `roiNonempty c` stands for `roi.size != 0`.  Returns `none` when
the candidate is filtered out, otherwise the padded rectangle clamped to the
image. -/
def contourPasses (w h : ℤ) (roiNonempty roiBright : Rect → Bool) (c : Rect) :
    Bool :=
  let area := c.w * c.h
  -- area in [total_area * 0.003, total_area * 0.15]
  !decide (1000 * area < 3 * (w * h)) && !decide (3 * (w * h) < 20 * area) &&
  -- aspect ratio w/h in [0.2, 5] (with hh = 0 treated as ratio 0, filtered)
  !decide (c.h = 0) && !decide (5 * c.w < c.h) && !decide (5 * c.h < c.w) &&
  -- roi.size != 0 and the >= 40% brightness test on the region's pixels
  roiNonempty c && roiBright c

/-- The 10%-of-shorter-side padding, clamped to the image (lines 136-141). -/
def padClamp (w h : ℤ) (c : Rect) : Rect :=
  let padding := pyFloorDiv (min c.w c.h) 10
  let x := max 0 (c.x - padding)
  let y := max 0 (c.y - padding)
  let ww := min (w - x) (c.w + padding * 2)
  let hh := min (h - y) (c.h + padding * 2)
  ⟨x, y, ww, hh⟩

def processContour (w h : ℤ) (roiNonempty roiBright : Rect → Bool) (c : Rect) :
    Option Rect :=
  if contourPasses w h roiNonempty roiBright c then some (padClamp w h c)
  else none

/-- `detect_blank_regions_cv` from the contour bounding boxes onward:
filter/pad each candidate, merge nearby rectangles, drop the ones smaller
than 60×25, re-sort in reading order, and truncate to `maxRegions`. -/
def detectFromCandidates (w h : ℤ) (roiNonempty roiBright : Rect → Bool)
    (cands : List Rect) (maxRegions : ℤ) : List Rect :=
  let rects := cands.filterMap (processContour w h roiNonempty roiBright)
  let merged := mergeStep rects
  let finalRects := (sortReading merged).filter fun r => 60 ≤ r.w ∧ 25 ≤ r.h
  if maxRegions < (finalRects.length : ℤ) then pySlice finalRects maxRegions
  else finalRects

/-- A rectangle lies within an image of size `w × h`. -/
def inBounds (w h : ℤ) (r : Rect) : Prop :=
  0 ≤ r.x ∧ 0 ≤ r.y ∧ r.x + r.w ≤ w ∧ r.y + r.h ≤ h

lemma runited_inBounds {w h : ℤ} {a b : Rect} (ha : inBounds w h a)
    (hb : inBounds w h b) : inBounds w h (runited a b) := by
  obtain ⟨hax, hay, haw, hah⟩ := ha
  obtain ⟨hbx, hby, hbw, hbh⟩ := hb
  refine ⟨le_min hax hbx, le_min hay hby, ?_, ?_⟩ <;> simp [runited] <;> omega

lemma processContour_inBounds {w h : ℤ} {ne br : Rect → Bool} {c r : Rect}
    (hc : processContour w h ne br c = some r) : inBounds w h r := by
  unfold processContour at hc
  split at hc
  · obtain rfl := Option.some_inj.mp hc
    unfold inBounds padClamp
    refine ⟨le_max_left _ _, le_max_left _ _, ?_, ?_⟩ <;> simp <;> omega
  · cases hc

lemma mem_mergeInsert {P : Rect → Prop}
    (hU : ∀ a b, P a → P b → P (runited a b)) :
    ∀ (acc : List Rect) (r : Rect), (∀ m ∈ acc, P m) → P r →
      ∀ m ∈ mergeInsert acc r, P m := by
  intro acc
  induction acc with
  | nil => intro r _ hr m hm; simp [mergeInsert] at hm; simpa [hm] using hr
  | cons a rest ih =>
      intro r hacc hr m hm
      simp only [mergeInsert] at hm
      split at hm
      · rw [List.mem_cons] at hm
        rcases hm with hm | hm
        · exact hm ▸ hU a r (hacc a (by simp)) hr
        · exact hacc m (by simp [hm])
      · rw [List.mem_cons] at hm
        rcases hm with hm | hm
        · exact hm ▸ hacc a (by simp)
        · exact ih r (fun x hx => hacc x (by simp [hx])) hr m hm

lemma mem_foldl_mergeInsert {P : Rect → Prop}
    (hU : ∀ a b, P a → P b → P (runited a b)) :
    ∀ (l acc : List Rect), (∀ m ∈ acc, P m) → (∀ r ∈ l, P r) →
      ∀ m ∈ l.foldl mergeInsert acc, P m := by
  intro l
  induction l with
  | nil => intro acc hacc _ m hm; exact hacc m hm
  | cons r rest ih =>
      intro acc hacc hl m hm
      simp only [List.foldl_cons] at hm
      exact ih (mergeInsert acc r)
        (mem_mergeInsert hU acc r hacc (hl r (by simp)))
        (fun x hx => hl x (by simp [hx])) m hm

lemma mem_sortReading {l : List Rect} {r : Rect} (h : r ∈ sortReading l) :
    r ∈ l := (List.perm_insertionSort ReadingLE l).mem_iff.mp h

lemma mem_mergeStep {P : Rect → Prop}
    (hU : ∀ a b, P a → P b → P (runited a b))
    {l : List Rect} (hl : ∀ r ∈ l, P r) :
    ∀ m ∈ mergeStep l, P m := by
  intro m hm
  exact mem_foldl_mergeInsert hU (sortReading l) []
    (by simp) (fun x hx => hl x (mem_sortReading hx)) m hm

lemma mem_pySlice {l : List Rect} {m : ℤ} {r : Rect} (h : r ∈ pySlice l m) :
    r ∈ l := by
  unfold pySlice at h
  split at h <;> exact List.mem_of_mem_take h

/-- Every rectangle returned by the post-contour pipeline arises as a union
of padded-and-clamped surviving candidates; hence any union-closed property
of the `processContour` outputs holds of every returned rectangle. -/
lemma mem_detectFromCandidates {P : Rect → Prop}
    (hU : ∀ a b, P a → P b → P (runited a b))
    {w h : ℤ} {ne br : Rect → Bool} {cands : List Rect} {maxRegions : ℤ}
    (hC : ∀ c r, processContour w h ne br c = some r → P r) :
    ∀ r ∈ detectFromCandidates w h ne br cands maxRegions, P r := by
  intro r hr
  simp only [detectFromCandidates] at hr
  have hrects : ∀ x ∈ cands.filterMap (processContour w h ne br), P x := by
    intro x hx
    rw [List.mem_filterMap] at hx
    obtain ⟨c, _, hc⟩ := hx
    exact hC c x hc
  have hmerged := mem_mergeStep hU hrects
  split at hr
  · have := mem_pySlice hr
    have := List.mem_filter.mp this
    exact hmerged _ (mem_sortReading this.1)
  · have := List.mem_filter.mp hr
    exact hmerged _ (mem_sortReading this.1)

/-- `a` does not intersect the 10 px-per-side expansion of `b` (the merge
loop's proximity test, negated). -/
def Separated (a b : Rect) : Prop := rintersects a (expand10 b) = false

/-- Symmetrized separation. -/
def SepSym (a b : Rect) : Prop := Separated a b ∧ Separated b a

instance : DecidableRel Separated := fun a b => by
  unfold Separated; infer_instance

instance : DecidableRel SepSym := fun a b => by
  unfold SepSym; infer_instance

lemma sepSym_symm : ∀ {a b : Rect}, SepSym a b → SepSym b a :=
  fun h => ⟨h.2, h.1⟩

lemma mergeInsert_append {acc : List Rect} {x : Rect}
    (h : ∀ m ∈ acc, Separated x m) : mergeInsert acc x = acc ++ [x] := by
  induction acc with
  | nil => rfl
  | cons a rest ih =>
      have ha : Separated x a := h a (by simp)
      simp only [mergeInsert]
      rw [if_neg (by simp [Separated] at ha; simp [ha])]
      simp [ih (fun m hm => h m (by simp [hm]))]

lemma foldl_mergeInsert_of_pairwise :
    ∀ (l acc : List Rect), List.Pairwise SepSym l →
      (∀ a ∈ acc, ∀ b ∈ l, SepSym a b) →
      l.foldl mergeInsert acc = acc ++ l := by
  intro l
  induction l with
  | nil => intro acc _ _; simp
  | cons x xs ih =>
      intro acc hp hcross
      rw [List.pairwise_cons] at hp
      have hx : ∀ m ∈ acc, Separated x m := fun m hm =>
        (hcross m hm x (by simp)).2
      simp only [List.foldl_cons, mergeInsert_append hx]
      rw [ih (acc ++ [x]) hp.2 ?_]
      · simp
      · intro a ha b hb
        rw [List.mem_append] at ha
        rcases ha with ha | ha
        · exact hcross a ha b (by simp [hb])
        · simp at ha
          exact ha ▸ hp.1 b hb

lemma pairwise_sortReading {l : List Rect} (h : List.Pairwise SepSym l) :
    List.Pairwise SepSym (sortReading l) :=
  ((List.perm_insertionSort ReadingLE l).symm.pairwise_iff
    (fun hab => sepSym_symm hab)).mp h

/-- When no two surviving rectangles are within 10 px of each other, the
single merge pass leaves every rectangle unmerged. -/
lemma mergeStep_of_pairwise {l : List Rect} (h : List.Pairwise SepSym l) :
    mergeStep l = sortReading l := by
  unfold mergeStep
  rw [foldl_mergeInsert_of_pairwise (sortReading l) [] (pairwise_sortReading h)
    (by simp)]
  simp

/-- Candidate contour boxes for the merge counterexample: two 100×100 boxes
in one visual row, plus a wide 500×100 box slightly below that bridges the
gap to the first one. -/
def mergeCands : List Rect :=
  [⟨110, 110, 100, 100⟩, ⟨410, 110, 100, 100⟩, ⟨220, 120, 500, 100⟩]

/-- Candidate contour boxes whose padded versions are pairwise more than
10 px apart. -/
def separatedCands : List Rect :=
  [⟨100, 100, 100, 100⟩, ⟨500, 500, 100, 100⟩]

/-- Candidate contour boxes for the `max_regions` counterexample. -/
def sliceCands : List Rect :=
  [⟨110, 110, 100, 100⟩, ⟨410, 110, 100, 100⟩, ⟨220, 120, 500, 100⟩]

/-- C5 counterexample: on a 1000×1000 image with the three candidate boxes
of `mergeCands`, the single merge pass returns two rectangles that still
intersect each other's 10 px expansions — the merge does NOT iterate to a
fixpoint.  (The wide third box is united into the first rectangle after the
second was already accepted, and the union reaches past the second.) -/
theorem detect_merge_not_fixpoint :
    detectFromCandidates 1000 1000 (fun _ => true) (fun _ => true) mergeCands 8 =
      [⟨100, 100, 630, 130⟩, ⟨400, 100, 120, 120⟩] ∧
    rintersects (⟨100, 100, 630, 130⟩ : Rect) (expand10 ⟨400, 100, 120, 120⟩) =
      true := by decide

/-- C5 amended: the merge stage is a single pass, not a fixpoint iteration;
when the padded surviving candidate rectangles are already pairwise
non-proximate (no one intersects the 10 px expansion of another), nothing is
merged and the returned sequence does satisfy the claimed property: no
returned rectangle intersects the 10 px expansion of any other. -/
theorem detect_separated_of_pairwise_separated
    (w h : ℤ) (ne br : Rect → Bool) (cands : List Rect) (maxRegions : ℤ)
    (hsep : List.Pairwise SepSym
      (cands.filterMap (processContour w h ne br))) :
    List.Pairwise SepSym (detectFromCandidates w h ne br cands maxRegions) := by
  simp only [detectFromCandidates]
  rw [mergeStep_of_pairwise hsep]
  have h1 : List.Pairwise SepSym (sortReading (sortReading
      (cands.filterMap (processContour w h ne br)))) :=
    pairwise_sortReading (pairwise_sortReading hsep)
  split
  · unfold pySlice
    split <;>
      exact (h1.sublist (List.filter_sublist _)).sublist (List.take_sublist _ _)
  · exact h1.sublist (List.filter_sublist _)

/-- Witness for `detect_separated_of_pairwise_separated` at the concrete
input `separatedCands` on a 1000×1000 image. -/
theorem detect_separated_witness :
    List.Pairwise SepSym
      (separatedCands.filterMap
        (processContour 1000 1000 (fun _ => true) (fun _ => true))) ∧
    List.Pairwise SepSym
      (detectFromCandidates 1000 1000 (fun _ => true) (fun _ => true)
        separatedCands 8) :=
  ⟨by decide,
   detect_separated_of_pairwise_separated 1000 1000 _ _ separatedCands 8
     (by decide)⟩

/-- C8 counterexample: with `max_regions = -1` (the claim quantifies over
every `max_regions` value), Python's negative slice `final_rects[:-1]` keeps
one rectangle, so the detector returns 1 > -1 rectangles. -/
theorem detect_max_regions_negative :
    (detectFromCandidates 1000 1000 (fun _ => true) (fun _ => true)
      sliceCands (-1)).length = 1 ∧
    ¬ (((detectFromCandidates 1000 1000 (fun _ => true) (fun _ => true)
      sliceCands (-1)).length : ℤ) ≤ -1) := by decide

/-- C8 amended: for every nonnegative `max_regions`, the detector returns at
most `max_regions` rectangles, each at least 60×25, and the sequence is
sorted in reading order (top y first, then left x). -/
theorem detect_count_size_sorted
    (w h : ℤ) (ne br : Rect → Bool) (cands : List Rect) (maxRegions : ℤ)
    (hm : 0 ≤ maxRegions) :
    ((detectFromCandidates w h ne br cands maxRegions).length : ℤ) ≤
        maxRegions ∧
    (∀ r ∈ detectFromCandidates w h ne br cands maxRegions,
        60 ≤ r.w ∧ 25 ≤ r.h) ∧
    List.Sorted ReadingLE (detectFromCandidates w h ne br cands maxRegions) := by
  have hsorted : ∀ l : List Rect, List.Sorted ReadingLE
      ((sortReading l).filter fun r => 60 ≤ r.w ∧ 25 ≤ r.h) := fun l =>
    (List.sorted_insertionSort ReadingLE l).sublist (List.filter_sublist _)
  simp only [detectFromCandidates]
  split
  · rename_i hlen
    unfold pySlice
    rw [if_pos hm]
    refine ⟨?_, ?_, ?_⟩
    · simp only [List.length_take]
      omega
    · intro r hr
      have := List.mem_filter.mp (List.mem_of_mem_take hr)
      exact by simpa using of_decide_eq_true this.2
    · exact (hsorted _).sublist (List.take_sublist _ _)
  · rename_i hlen
    refine ⟨by omega, ?_, hsorted _⟩
    intro r hr
    have := List.mem_filter.mp hr
    exact by simpa using of_decide_eq_true this.2

/-- Witness for `detect_count_size_sorted` at `sliceCands`, image
1000×1000, `max_regions = 8`. -/
theorem detect_count_size_sorted_witness :
    (0 : ℤ) ≤ 8 ∧
    ((detectFromCandidates 1000 1000 (fun _ => true) (fun _ => true)
        sliceCands 8).length : ℤ) ≤ 8 :=
  ⟨by decide,
   (detect_count_size_sorted 1000 1000 (fun _ => true) (fun _ => true)
     sliceCands 8 (by decide)).1⟩

/-- C10: every rectangle returned by the detector lies within the image:
the padding step clamps to the image bounds and merging only takes unions,
which preserve in-bounds-ness. -/
theorem detect_in_bounds
    (w h : ℤ) (ne br : Rect → Bool) (cands : List Rect) (maxRegions : ℤ) :
    ∀ r ∈ detectFromCandidates w h ne br cands maxRegions, inBounds w h r :=
  mem_detectFromCandidates
    (fun _ _ ha hb => runited_inBounds ha hb)
    (fun _ _ hc => processContour_inBounds hc)

/-- Witness for `detect_in_bounds` on a concrete detection run. -/
theorem detect_in_bounds_witness :
    (⟨100, 100, 630, 130⟩ : Rect) ∈
      detectFromCandidates 1000 1000 (fun _ => true) (fun _ => true)
        mergeCands 8 ∧
    inBounds 1000 1000 ⟨100, 100, 630, 130⟩ :=
  ⟨by decide,
   detect_in_bounds 1000 1000 (fun _ => true) (fun _ => true) mergeCands 8
     ⟨100, 100, 630, 130⟩ (by decide)⟩

/-- `TextStyle` from `src/main.py`: bold/italic/underline flags, an RGB
color, an optional explicit point size (`None`/`0` means auto-fit) and an
optional font family name. -/
structure TextStyle where
  bold : Bool := false
  italic : Bool := false
  underline : Bool := false
  color : ℤ × ℤ × ℤ := (20, 20, 20)
  size : Option ℤ := none
  family : String := ""
deriving DecidableEq, Repr

/-- The default auto-fit style (`TextStyle()`). -/
def autoStyle : TextStyle := {}

/-- Python strings are modelled as character lists (so that every string
operation is a structural computation). -/
abbrev PyStr := List Char

/-- Python `str.strip()`: drop leading and trailing whitespace.  (Lean's
`Char.isWhitespace` covers space/tab/newline/CR, the whitespace that occurs
in practice.) -/
def pyStrip (s : PyStr) : PyStr :=
  ((s.dropWhile Char.isWhitespace).reverse.dropWhile Char.isWhitespace).reverse

/-- Helper for `pyWords`: accumulate the current word (reversed). -/
def splitWSAux : PyStr → PyStr → List PyStr
  | [], acc => if acc = [] then [] else [acc.reverse]
  | c :: rest, acc =>
      if c.isWhitespace then
        if acc = [] then splitWSAux rest [] else acc.reverse :: splitWSAux rest []
      else splitWSAux rest (c :: acc)

/-- Python `str.split()` with no arguments: split on whitespace runs,
dropping empty pieces. -/
def pyWords (s : PyStr) : List PyStr := splitWSAux s []

/-- Python `" ".join(ws)`. -/
def joinSpace (ws : List PyStr) : PyStr := List.intercalate [' '] ws

/-- The four `QFontMetrics` quantities the drawing code reads, abstracted as
a deterministic metrics model (Qt's font engine is external to the
repository): `boundingWidth text s` is `fm.boundingRect(text).width()` at
point size `s`, `advanceWidth text s` is `fm.horizontalAdvance(text)`, and
`ascent`/`descent` are `fm.ascent()`/`fm.descent()`; `fm.height()` is
`ascent + descent`. -/
structure FontMetricsModel where
  boundingWidth : PyStr → ℤ → ℤ
  advanceWidth : PyStr → ℤ → ℤ
  ascent : ℤ → ℤ
  descent : ℤ → ℤ

/-- `QFontMetrics.height() = ascent() + descent()`. -/
def fmHeight (M : FontMetricsModel) (s : ℤ) : ℤ := M.ascent s + M.descent s

/-- A simple concrete metrics model used for concrete evaluations:
every glyph is `s` wide, ascent `s`, descent `0` (nonnegative sizes). -/
def simpleMetrics : FontMetricsModel where
  boundingWidth := fun t s => max 0 s * (t.length : ℤ)
  advanceWidth := fun t s => max 0 s * (t.length : ℤ)
  ascent := fun s => max 0 s
  descent := fun _ => 0

/-- `padding = max(12, int(min(r.width(), r.height()) * 0.08))`
(`_draw_text_on_image`, line 1334). -/
def fitPadding (r : Rect) : ℤ := max 12 (pyFloorDiv (8 * min r.w r.h) 100)

/-- `avail_w = max(4, r.width() - padding * 2)` (line 1335). -/
def fitAvailW (r : Rect) : ℤ := max 4 (r.w - 2 * fitPadding r)

/-- `avail_h = max(4, r.height() - padding * 2)` (line 1336). -/
def fitAvailH (r : Rect) : ℤ := max 4 (r.h - 2 * fitPadding r)

/-- `min_reasonable_size = max(12, int(avail_h * 0.3))` (line 1339). -/
def minReasonableSize (r : Rect) : ℤ := max 12 (pyFloorDiv (3 * fitAvailH r) 10)

/-- The word-trim test of lines 1323-1345: at least three
whitespace-separated words AND the full text measured (by
`horizontalAdvance`) at the minimum reasonable size is wider than
1.5 × available width. -/
def trimCondition (M : FontMetricsModel) (r : Rect) (origText : PyStr) : Bool :=
  decide (3 ≤ (pyWords (pyStrip origText)).length) &&
  decide (3 * fitAvailW r < 2 * M.advanceWidth origText (minReasonableSize r))

/-- The text actually rendered: the first two words when the trim test
fires (`" ".join(words[:2]).strip()`), otherwise the stripped original. -/
def fitText (M : FontMetricsModel) (r : Rect) (origText : PyStr) : PyStr :=
  if trimCondition M r origText then
    pyStrip (joinSpace ((pyWords (pyStrip origText)).take 2))
  else pyStrip origText

/-- The binary-search fit test of lines 1372-1386: measured bounding width
and line height both fit the available box. -/
def fitsSize (M : FontMetricsModel) (text : PyStr) (aw ah s : ℤ) : Bool :=
  decide (M.boundingWidth text s ≤ aw ∧ fmHeight M s ≤ ah)

/-- The `while low <= high` binary search of lines 1368-1386, with explicit
fuel (the caller passes fuel equal to the initial interval length, which
bounds the number of iterations since the interval shrinks every round). -/
def bsearchFont (fits : ℤ → Bool) : Nat → ℤ → ℤ → ℤ → ℤ
  | 0, _, _, best => best
  | fuel + 1, low, high, best =>
      if low ≤ high then
        let mid := pyFloorDiv (low + high) 2
        if fits mid then bsearchFont fits fuel (mid + 1) high mid
        else bsearchFont fits fuel low (mid - 1) best
      else best

/-- `best_size` after the binary search over `[8, min(int(avail_h*0.8), 120)]`
(lines 1364-1388). -/
def fittedSize (M : FontMetricsModel) (r : Rect) (text : PyStr) : ℤ :=
  let maxSize := min (pyFloorDiv (8 * fitAvailH r) 10) 120
  bsearchFont (fitsSize M text (fitAvailW r) (fitAvailH r))
    (maxSize + 1 - 8).toNat 8 maxSize 8

/-- `user_explicit = bool(user_size and user_size > 0)` (line 1396). -/
def userExplicit (st : TextStyle) : Bool :=
  match st.size with
  | some s => decide (0 < s)
  | none => false

/-- `needs_shrink()` of lines 1413-1418: never for an explicit user size,
otherwise whenever the measured text exceeds the available box. -/
def needsShrinkB (M : FontMetricsModel) (text : PyStr) (aw ah : ℤ)
    (uex : Bool) (s : ℤ) : Bool :=
  !uex && !fitsSize M text aw ah s

/-- The `while needs_shrink() and f.pointSize() > min_size and
shrink_attempts < 10` loop of lines 1419-1426 (fuel 10 = the attempt cap). -/
def shrinkLoop (needsShrink : ℤ → Bool) : Nat → ℤ → ℤ
  | 0, s => s
  | n + 1, s =>
      if needsShrink s && decide (8 < s) then shrinkLoop needsShrink n (max 8 (s - 1))
      else s

/-- The upscale heuristic of lines 1428-1442 (auto-fit only): if the text
uses less than 60% of both available dimensions and the current size is
below 16 pt, try `min(24, int(avail_h*0.7))`; keep it only if it still
fits, else revert to the binary-search size. -/
def upscaleStep (M : FontMetricsModel) (r : Rect) (text : PyStr)
    (uex : Bool) (fitted s : ℤ) : ℤ :=
  if !uex && decide (5 * M.boundingWidth text s < 3 * fitAvailW r ∧
      5 * fmHeight M s < 3 * fitAvailH r ∧ s < 16) then
    if fitsSize M text (fitAvailW r) (fitAvailH r)
        (min 24 (pyFloorDiv (7 * fitAvailH r) 10)) then
      min 24 (pyFloorDiv (7 * fitAvailH r) 10)
    else fitted
  else s

/-- The final point size the text is drawn at: binary search, then the
explicit user size if one is set, then the shrink loop and the upscale
heuristic (lines 1363-1442). -/
def resolvedSize (M : FontMetricsModel) (st : TextStyle) (r : Rect)
    (origText : PyStr) : ℤ :=
  let text := fitText M r origText
  let fitted := fittedSize M r text
  let s0 := if userExplicit st then st.size.getD 0 else fitted
  let s1 := shrinkLoop
    (needsShrinkB M text (fitAvailW r) (fitAvailH r) (userExplicit st)) 10 s0
  upscaleStep M r text (userExplicit st) fitted s1

/-- The horizontal anchor of lines 1449-1461: center, then clamp to
`[r.x + padding, r.x + r.width - textWidth - padding]`. -/
def anchorX (M : FontMetricsModel) (r : Rect) (text : PyStr) (size : ℤ) : ℤ :=
  let tw := M.boundingWidth text size
  let cx := r.x + pyFloorDiv r.w 2
  let tx := cx - pyFloorDiv tw 2
  max (r.x + fitPadding r) (min tx (r.x + r.w - tw - fitPadding r))

/-- The vertical baseline of lines 1449-1465: center adjusted by
ascent/descent, then clamp to
`[r.y + ascent + padding, r.y + r.height - descent - padding]`. -/
def anchorY (M : FontMetricsModel) (r : Rect) (size : ℤ) : ℤ :=
  let cy := r.y + pyFloorDiv r.h 2
  let ty := cy + pyFloorDiv (M.ascent size - M.descent size) 2
  max (r.y + M.ascent size + fitPadding r)
    (min ty (r.y + r.h - M.descent size - fitPadding r))

/-- The text-fitting computation for one mask: resolved point size, resolved
(possibly trimmed) text, and the baseline anchor the text is drawn at. -/
structure FitResult where
  size : ℤ
  text : PyStr
  textX : ℤ
  textY : ℤ
deriving DecidableEq, Repr

/-- `_draw_text_on_image`, one mask, nonempty text: the complete fit. -/
def resolveFit (M : FontMetricsModel) (st : TextStyle) (r : Rect)
    (origText : PyStr) : FitResult :=
  let text := fitText M r origText
  let size := resolvedSize M st r origText
  ⟨size, text, anchorX M r text size, anchorY M r size⟩

lemma resolveFit_size (M : FontMetricsModel) (st : TextStyle) (r : Rect)
    (t : PyStr) : (resolveFit M st r t).size = resolvedSize M st r t := rfl

lemma resolveFit_text (M : FontMetricsModel) (st : TextStyle) (r : Rect)
    (t : PyStr) : (resolveFit M st r t).text = fitText M r t := rfl

lemma resolveFit_textX (M : FontMetricsModel) (st : TextStyle) (r : Rect)
    (t : PyStr) :
    (resolveFit M st r t).textX =
      anchorX M r (fitText M r t) (resolvedSize M st r t) := rfl

lemma resolveFit_textY (M : FontMetricsModel) (st : TextStyle) (r : Rect)
    (t : PyStr) :
    (resolveFit M st r t).textY = anchorY M r (resolvedSize M st r t) := rfl

lemma pyFloorDiv_eq_ediv (a b : ℤ) (hb : 0 ≤ b) : pyFloorDiv a b = a / b :=
  Int.fdiv_eq_ediv a hb

lemma pyFloorDiv_two (a : ℤ) : pyFloorDiv a 2 = a / 2 :=
  pyFloorDiv_eq_ediv a 2 (by norm_num)

lemma pyFloorDiv_ten (a : ℤ) : pyFloorDiv a 10 = a / 10 :=
  pyFloorDiv_eq_ediv a 10 (by norm_num)

lemma shrinkLoop_id_of_false {f : ℤ → Bool} (hf : ∀ s, f s = false) :
    ∀ (n : Nat) (s : ℤ), shrinkLoop f n s = s := by
  intro n
  induction n with
  | zero => intro s; rfl
  | succ n ih => intro s; simp [shrinkLoop, hf]

lemma shrinkLoop_bounds (f : ℤ → Bool) :
    ∀ (n : Nat) (s : ℤ), 8 ≤ s →
      8 ≤ shrinkLoop f n s ∧ shrinkLoop f n s ≤ s := by
  intro n
  induction n with
  | zero => intro s hs; exact ⟨hs, le_refl s⟩
  | succ n ih =>
      intro s hs
      simp only [shrinkLoop]
      split
      · obtain ⟨h1, h2⟩ := ih (max 8 (s - 1)) (le_max_left _ _)
        exact ⟨h1, h2.trans (by omega)⟩
      · exact ⟨hs, le_refl s⟩

lemma bsearchFont_prop (fits : ℤ → Bool) (P : ℤ → Prop) :
    ∀ (fuel : Nat) (low high best : ℤ), P best →
      (∀ s, low ≤ s → s ≤ high → fits s = true → P s) →
      P (bsearchFont fits fuel low high best) := by
  intro fuel
  induction fuel with
  | zero => intro low high best hb _; exact hb
  | succ n ih =>
      intro low high best hb hs
      simp only [bsearchFont]
      split
      · rename_i hlh
        have hmidlo : low ≤ pyFloorDiv (low + high) 2 := by
          rw [pyFloorDiv_two]; omega
        have hmidhi : pyFloorDiv (low + high) 2 ≤ high := by
          rw [pyFloorDiv_two]; omega
        split
        · rename_i hfit
          exact ih _ _ _ (hs _ hmidlo hmidhi hfit)
            (fun s h1 h2 h3 => hs s (by omega) h2 h3)
        · exact ih _ _ _ hb (fun s h1 h2 h3 => hs s h1 (by omega) h3)
      · exact hb

lemma fittedSize_bounds (M : FontMetricsModel) (r : Rect) (text : PyStr) :
    8 ≤ fittedSize M r text ∧
    (fittedSize M r text = 8 ∨
     fittedSize M r text ≤ min (pyFloorDiv (8 * fitAvailH r) 10) 120) := by
  unfold fittedSize
  exact bsearchFont_prop _
    (fun s => 8 ≤ s ∧ (s = 8 ∨ s ≤ min (pyFloorDiv (8 * fitAvailH r) 10) 120))
    _ 8 _ 8 ⟨le_refl 8, Or.inl rfl⟩ (fun s h1 h2 _ => ⟨h1, Or.inr h2⟩)

/-- C2: with an explicit user size `S > 0`, the fit uses exactly `S`:
the shrink loop is disabled (`needs_shrink` returns `False` for explicit
sizes) and the upscale heuristic only runs on the auto path, so the size is
never changed — even when the measured text overflows the rectangle. -/
theorem explicit_size_used_exactly (M : FontMetricsModel) (st : TextStyle)
    (r : Rect) (origText : PyStr) (S : ℤ) (hs : st.size = some S)
    (hS : 0 < S) : (resolveFit M st r origText).size = S := by
  have hex : userExplicit st = true := by simp [userExplicit, hs, hS]
  rw [resolveFit_size]
  simp only [resolvedSize, hex, if_true]
  rw [shrinkLoop_id_of_false (f := needsShrinkB M (fitText M r origText)
    (fitAvailW r) (fitAvailH r) true) (fun s => by simp [needsShrinkB])]
  simp [upscaleStep, hs]

/-- Witness for `explicit_size_used_exactly`: size 37 in a 20×12 rectangle
with a long text — the measured text overflows, the size is still 37. -/
theorem explicit_size_witness :
    (⟨false, false, false, (20, 20, 20), some 37, ""⟩ : TextStyle).size =
      some 37 ∧ (0 : ℤ) < 37 ∧
    (resolveFit simpleMetrics ⟨false, false, false, (20, 20, 20), some 37, ""⟩
      ⟨0, 0, 20, 12⟩ "Hello world wide".toList).size = 37 :=
  ⟨rfl, by decide,
   explicit_size_used_exactly simpleMetrics _ _ "Hello world wide".toList 37 rfl
     (by decide)⟩

/-- C7: the word-trim heuristic keeps exactly the first two words exactly
when the text has at least 3 whitespace-separated words and its measured
width at size `max(12, int(avail_h*0.3))` exceeds 1.5 × the available
width; otherwise the (stripped) text is rendered untrimmed. -/
theorem word_trim_rule (M : FontMetricsModel) (r : Rect) (origText : PyStr) :
    (trimCondition M r origText = true →
      fitText M r origText =
        pyStrip (joinSpace ((pyWords (pyStrip origText)).take 2))) ∧
    (trimCondition M r origText = false →
      fitText M r origText = pyStrip origText) ∧
    (trimCondition M r origText = true ↔
      (3 ≤ (pyWords (pyStrip origText)).length ∧
       3 * fitAvailW r < 2 * M.advanceWidth origText (minReasonableSize r))) := by
  refine ⟨fun h => ?_, fun h => ?_, ?_⟩
  · simp [fitText, h]
  · simp [fitText, h]
  · simp [trimCondition]

lemma fitAvailW_pos (r : Rect) : 4 ≤ fitAvailW r := le_max_left _ _

lemma fitAvailH_pos (r : Rect) : 4 ≤ fitAvailH r := le_max_left _ _

/-- Size bounds for the auto-fit path: the resolved size is at least 8 and
at most `max(8, min(int(avail_h*0.8), 120))` (the binary-search ceiling,
except that the floor of 8 wins when the ceiling drops below it). -/
lemma resolvedSize_bounds (M : FontMetricsModel) (st : TextStyle) (r : Rect)
    (origText : PyStr) (hauto : userExplicit st = false)
    (hH : ∀ s, s ≤ fmHeight M s) :
    8 ≤ resolvedSize M st r origText ∧
    resolvedSize M st r origText ≤
      max 8 (min (pyFloorDiv (8 * fitAvailH r) 10) 120) := by
  unfold resolvedSize
  rw [hauto]
  simp only [Bool.false_eq_true, if_false]
  obtain ⟨hf8, hfB⟩ := fittedSize_bounds M r (fitText M r origText)
  obtain ⟨h18, h1le⟩ := shrinkLoop_bounds
    (needsShrinkB M (fitText M r origText) (fitAvailW r) (fitAvailH r) false)
    10 (fittedSize M r (fitText M r origText)) hf8
  have hah := fitAvailH_pos r
  set ah := fitAvailH r with hahdef
  set fitted := fittedSize M r (fitText M r origText) with hfd
  set s1 := shrinkLoop
    (needsShrinkB M (fitText M r origText) (fitAvailW r) ah false) 10 fitted
    with hs1
  unfold upscaleStep
  simp only [pyFloorDiv_ten] at *
  split
  · rename_i hcond
    simp only [Bool.not_false, Bool.true_and, decide_eq_true_eq] at hcond
    obtain ⟨-, hheight, -⟩ := hcond
    have hs1h := hH s1
    split
    · -- accept: size = min 24 ((7 * ah) / 10)
      omega
    · -- reject: size = fitted
      omega
  · omega

lemma anchor_in_padded_interior (M : FontMetricsModel) (r : Rect)
    (text : PyStr) (size : ℤ)
    (hw : M.boundingWidth text size ≤ fitAvailW r)
    (hh : fmHeight M size ≤ fitAvailH r)
    (h4w : 4 ≤ r.w - 2 * fitPadding r) (h4h : 4 ≤ r.h - 2 * fitPadding r) :
    r.x + fitPadding r ≤ anchorX M r text size ∧
    anchorX M r text size + M.boundingWidth text size ≤
      r.x + r.w - fitPadding r ∧
    r.y + fitPadding r ≤ anchorY M r size - M.ascent size ∧
    anchorY M r size + M.descent size ≤ r.y + r.h - fitPadding r := by
  have haw : fitAvailW r = r.w - 2 * fitPadding r := by unfold fitAvailW; omega
  have hah : fitAvailH r = r.h - 2 * fitPadding r := by unfold fitAvailH; omega
  rw [haw] at hw
  rw [hah] at hh
  unfold fmHeight at hh
  simp only [anchorX, anchorY]
  refine ⟨?_, ?_, ?_, ?_⟩ <;> omega

/-- C1 (amended): for every non-empty text under an auto-fit style and any
font-metrics model whose line height is at least the point size, the
resolved size is an integer in `[8, max(8, min(int(avail_h*0.8), 120))]`
(hence at most 120); and whenever the measured text at the resolved size
fits the available box and the rectangle is large enough that the padded
interior is the available box (`width, height ≥ 2*padding + 4`), the
measured glyph-run rectangle lies inside the padded interior.  The original
claim fails for small rectangles, where the resolved size exceeds
`min(int(avail_h*0.8), 120)` and the glyph run overflows the padding
(see `autoFit_claim_counterexample`). -/
theorem autoFit_size_bounds_and_containment (M : FontMetricsModel)
    (st : TextStyle) (r : Rect) (origText : PyStr)
    (hauto : userExplicit st = false)
    (hH : ∀ s, s ≤ fmHeight M s) :
    (8 ≤ (resolveFit M st r origText).size ∧
     (resolveFit M st r origText).size ≤
       max 8 (min (pyFloorDiv (8 * fitAvailH r) 10) 120) ∧
     (resolveFit M st r origText).size ≤ 120) ∧
    (M.boundingWidth (resolveFit M st r origText).text
        (resolveFit M st r origText).size ≤ fitAvailW r →
     fmHeight M (resolveFit M st r origText).size ≤ fitAvailH r →
     4 ≤ r.w - 2 * fitPadding r → 4 ≤ r.h - 2 * fitPadding r →
     (r.x + fitPadding r ≤ (resolveFit M st r origText).textX ∧
      (resolveFit M st r origText).textX +
        M.boundingWidth (resolveFit M st r origText).text
          (resolveFit M st r origText).size ≤ r.x + r.w - fitPadding r ∧
      r.y + fitPadding r ≤ (resolveFit M st r origText).textY -
        M.ascent (resolveFit M st r origText).size ∧
      (resolveFit M st r origText).textY +
        M.descent (resolveFit M st r origText).size ≤
        r.y + r.h - fitPadding r)) := by
  obtain ⟨h8, hB⟩ := resolvedSize_bounds M st r origText hauto hH
  constructor
  · rw [resolveFit_size]
    exact ⟨h8, hB, by omega⟩
  · intro hw hh h4w h4h
    simp only [resolveFit_size, resolveFit_text, resolveFit_textX,
      resolveFit_textY] at hw hh ⊢
    exact anchor_in_padded_interior M r _ _ hw hh h4w h4h

/-- C1 counterexample: the 20×12 rectangle (the smallest the editor allows)
with text "Hi" under the simple metrics model.  Padding is 12, so the
available box is floored at 4×4 and the claim's size ceiling
`min(int(avail_h*0.8), 120)` is 3 — yet the resolved size is 8, and the
glyph run ends at x = 28, far beyond the padded right edge x = 8: the
glyph-run rectangle does not lie within the padded interior. -/
theorem autoFit_claim_counterexample :
    (resolveFit simpleMetrics autoStyle ⟨0, 0, 20, 12⟩ "Hi".toList).size = 8 ∧
    min (pyFloorDiv (8 * fitAvailH ⟨0, 0, 20, 12⟩) 10) 120 = 3 ∧
    ¬ ((resolveFit simpleMetrics autoStyle ⟨0, 0, 20, 12⟩ "Hi".toList).size ≤
        min (pyFloorDiv (8 * fitAvailH ⟨0, 0, 20, 12⟩) 10) 120) ∧
    (resolveFit simpleMetrics autoStyle ⟨0, 0, 20, 12⟩ "Hi".toList).textX +
      simpleMetrics.boundingWidth
        (resolveFit simpleMetrics autoStyle ⟨0, 0, 20, 12⟩ "Hi".toList).text
        (resolveFit simpleMetrics autoStyle ⟨0, 0, 20, 12⟩ "Hi".toList).size =
      28 ∧
    (⟨0, 0, 20, 12⟩ : Rect).x + (⟨0, 0, 20, 12⟩ : Rect).w -
      fitPadding ⟨0, 0, 20, 12⟩ = 8 ∧
    ¬ ((28 : ℤ) ≤ 8) := by decide

/-- Witness for `autoFit_size_bounds_and_containment`: a 200×60 rectangle
with text "Alex" resolves to size 28 and the glyph run sits inside the
padded interior. -/
theorem autoFit_witness :
    userExplicit autoStyle = false ∧
    (∀ s, s ≤ fmHeight simpleMetrics s) ∧
    (8 ≤ (resolveFit simpleMetrics autoStyle ⟨100, 100, 200, 60⟩
        "Alex".toList).size ∧
     (resolveFit simpleMetrics autoStyle ⟨100, 100, 200, 60⟩
        "Alex".toList).size ≤ 120) ∧
    ((⟨100, 100, 200, 60⟩ : Rect).x + fitPadding ⟨100, 100, 200, 60⟩ ≤
      (resolveFit simpleMetrics autoStyle ⟨100, 100, 200, 60⟩
        "Alex".toList).textX) := by
  have hH : ∀ s, s ≤ fmHeight simpleMetrics s := fun s => by
    simp only [fmHeight, simpleMetrics]
    omega
  have main := autoFit_size_bounds_and_containment simpleMetrics autoStyle
    ⟨100, 100, 200, 60⟩ "Alex".toList (by decide) hH
  refine ⟨by decide, hH, ⟨main.1.1, main.1.2.2⟩, ?_⟩
  exact (main.2 (by decide) (by decide) (by decide) (by decide)).1

/-- Witness for `word_trim_rule`: a three-word name in a 300×100 box whose
quick width estimate exceeds 1.5 × the available width is trimmed to its
first two words. -/
theorem word_trim_rule_witness :
    trimCondition simpleMetrics ⟨0, 0, 300, 100⟩
      "Alexander Benjamin Carter".toList = true ∧
    fitText simpleMetrics ⟨0, 0, 300, 100⟩ "Alexander Benjamin Carter".toList =
      "Alexander Benjamin".toList :=
  ⟨by decide, by
    rw [(word_trim_rule simpleMetrics ⟨0, 0, 300, 100⟩
      "Alexander Benjamin Carter".toList).1 (by decide)]
    decide⟩

/-- The schema validation of `on_excel_dropped` (lines 1240-1255), in the
code's order: column count must equal mask count, no assigned label may be
empty after stripping, and the column-name sequence must equal the
assigned-label sequence exactly. -/
def schemaValid (labels cols : List PyStr) : Bool :=
  if cols.length ≠ labels.length then false
  else if labels.any fun s => pyStrip s = [] then false
  else if cols ≠ labels then false
  else true

/-- The batch outcome of the Excel drop handler: `none` when validation
rejects (an error dialog is shown and the handler returns before any image
is rendered), otherwise one rendered output per dataset row (represented
here by the row itself; the per-row drawing is `resolveFit` per mask). -/
def excelBatch (labels cols : List PyStr) (rows : List (List PyStr)) :
    Option (List (List PyStr)) :=
  if schemaValid labels cols then some rows else none

/-- C3 counterexample: a single mask labelled `" "` (one space) against a
dataset with the single column `" "`.  The column count matches, the label
is not the empty string, and the column sequence equals the label sequence —
so the claim says the dataset is accepted — yet the code rejects it, because
it tests `s.strip() == ""` and a whitespace-only label strips to empty. -/
theorem schema_whitespace_label_counterexample :
    excelBatch [[' ']] [[' ']] [[['A']]] = none ∧
    ¬ (([[' ']] : List PyStr).length ≠ ([[' ']] : List PyStr).length ∨
       (∃ l ∈ ([[' ']] : List PyStr), l = []) ∨
       ([[' ']] : List PyStr) ≠ [[' ']]) := by decide

/-- C3 amended: validation rejects exactly when the column count differs
from the mask count, or some mask label is empty after stripping whitespace
(whitespace-only labels are rejected too), or the ordered column-name
sequence differs from the ordered assigned-label sequence (case-sensitive
and order-sensitive, so a permutation is rejected); and the batch is
all-or-nothing: on rejection no output is produced, otherwise exactly one
output per row. -/
theorem schema_validation_characterization (labels cols : List PyStr)
    (rows : List (List PyStr)) :
    (excelBatch labels cols rows = none ↔
      (cols.length ≠ labels.length ∨ (∃ l ∈ labels, pyStrip l = []) ∨
       cols ≠ labels)) ∧
    (excelBatch labels cols rows = none ∨
     excelBatch labels cols rows = some rows) := by
  constructor
  · unfold excelBatch schemaValid
    split_ifs with h1 h2 h3 <;> simp_all [List.any_eq_true]
  · unfold excelBatch
    split
    · exact Or.inr rfl
    · exact Or.inl rfl

/-- The mask-letter registry of `MainWindow`: the list of live masks'
letter indices (0 ↦ 'a', …) in creation order, plus the position of the
`_letters_iter` iterator over `string.ascii_lowercase`. -/
structure MaskLetters where
  letters : List ℕ
  used : ℕ
deriving DecidableEq, Repr

/-- State after a template load (`_letters_iter = iter(ascii_lowercase)`,
`masks = []`). -/
def initMasks : MaskLetters := ⟨[], 0⟩

/-- The display letter of index `i`: `'a' + i`. -/
def maskLetter (i : ℕ) : Char := Char.ofNat (97 + i)

/-- `on_mask_added`: take the next iterator letter; if the iterator is
exhausted (`next(...) is None`) report the capacity error and change
nothing (`none`), else append a mask carrying the new letter. -/
def createMask (s : MaskLetters) : Option MaskLetters :=
  if s.used < 26 then some ⟨s.letters ++ [s.used], s.used + 1⟩ else none

/-- `on_delete_variable`: remove the mask with the given letter; the
iterator is untouched, so the letter is never reused. -/
def deleteMask (s : MaskLetters) (i : ℕ) : MaskLetters :=
  ⟨s.letters.filter (· ≠ i), s.used⟩

/-- States reachable from a fresh template by creations and deletions
(a failed creation leaves the state unchanged). -/
inductive MaskReachable : MaskLetters → Prop
  | init : MaskReachable initMasks
  | create {s t : MaskLetters} : MaskReachable s → createMask s = some t →
      MaskReachable t
  | delete {s : MaskLetters} (i : ℕ) : MaskReachable s →
      MaskReachable (deleteMask s i)

/-- The registry invariant: live letter indices are strictly increasing in
creation order and below the iterator position, which never exceeds 26. -/
def MaskInv (s : MaskLetters) : Prop :=
  s.letters.Pairwise (· < ·) ∧ (∀ i ∈ s.letters, i < s.used) ∧ s.used ≤ 26

lemma maskInv_init : MaskInv initMasks := by
  refine ⟨List.Pairwise.nil, ?_, ?_⟩ <;> simp [initMasks]

lemma maskInv_create {s t : MaskLetters} (h : MaskInv s)
    (hc : createMask s = some t) : MaskInv t := by
  obtain ⟨hp, hb, hu⟩ := h
  unfold createMask at hc
  split at hc
  · rename_i hlt
    obtain rfl := Option.some_inj.mp hc
    unfold MaskInv
    dsimp only
    refine ⟨?_, ?_, by omega⟩
    · rw [List.pairwise_append]
      exact ⟨hp, List.pairwise_singleton _ _,
        fun a ha b hb' => by simp at hb'; subst hb'; exact hb a ha⟩
    · intro i hi
      rw [List.mem_append] at hi
      rcases hi with hi | hi
      · have := hb i hi; omega
      · simp at hi; omega
  · cases hc

lemma maskInv_delete {s : MaskLetters} (i : ℕ) (h : MaskInv s) :
    MaskInv (deleteMask s i) := by
  obtain ⟨hp, hb, hu⟩ := h
  exact ⟨hp.sublist (List.filter_sublist _),
    fun j hj => hb j (List.mem_of_mem_filter hj), hu⟩

lemma maskInv_reachable {s : MaskLetters} (h : MaskReachable s) : MaskInv s := by
  induction h with
  | init => exact maskInv_init
  | create _ hc ih => exact maskInv_create ih hc
  | delete i _ ih => exact maskInv_delete i ih

/-- Distinct letter indices below 26 display as distinct letters. -/
lemma maskLetter_injective_below :
    ∀ i j : Fin 26, i.val ≠ j.val → maskLetter i.val ≠ maskLetter j.val := by
  decide

/-- C4 amended: in every reachable registry state the live masks' letters
are pairwise distinct and strictly increasing in creation order (so letters
are assigned in strict alphabetical creation order starting at 'a'), and a
creation attempt fails with the capacity error exactly when 26 letters have
been consumed since the template was loaded — deleted masks' letters are
not recycled, so failure can occur with fewer than 26 live masks; a failed
creation returns no new state, leaving the masks untouched. -/
theorem mask_letters_unique_ordered_capacity (s : MaskLetters)
    (h : MaskReachable s) :
    s.letters.Pairwise (· < ·) ∧
    (s.letters.map maskLetter).Pairwise (· ≠ ·) ∧
    (∀ i ∈ s.letters, i < 26) ∧
    (createMask s = none ↔ s.used = 26) := by
  obtain ⟨hp, hb, hu⟩ := maskInv_reachable h
  have hlt : ∀ i ∈ s.letters, i < 26 := fun i hi => lt_of_lt_of_le (hb i hi) hu
  refine ⟨hp, ?_, hlt, ?_⟩
  · rw [List.pairwise_map]
    refine hp.imp_of_mem ?_
    intro a b ha hb' hab
    exact maskLetter_injective_below ⟨a, hlt a ha⟩ ⟨b, hlt b hb'⟩
      (Nat.ne_of_lt hab)
  · unfold createMask
    constructor
    · intro hn
      by_contra hne
      have : s.used < 26 := by omega
      simp [this] at hn
    · intro h26
      simp [h26]

/-- Apply `createMask` `n` times, keeping the old state on failure (the
handler returns without changing anything when the iterator is spent). -/
def createN : ℕ → MaskLetters → MaskLetters
  | 0, s => s
  | n + 1, s => createN n ((createMask s).getD s)

lemma reachable_createN : ∀ (n : ℕ) (s : MaskLetters), MaskReachable s →
    MaskReachable (createN n s) := by
  intro n
  induction n with
  | zero => intro s hs; exact hs
  | succ n ih =>
      intro s hs
      unfold createN
      cases hc : createMask s with
      | none => exact ih s (by simpa [hc] using hs)
      | some t => simpa [hc] using ih t (MaskReachable.create hs hc)

/-- The state after 26 successful creations. -/
def fullMasks : MaskLetters := createN 26 initMasks

/-- The state after 26 creations followed by deleting mask 'a'. -/
def fullMinusA : MaskLetters := deleteMask fullMasks 0

set_option maxRecDepth 8000 in
/-- C4 counterexample: after 26 creations and one deletion only 25 letters
are in use — letter 'a' is free — yet the next creation still fails with
the capacity error, because deleted letters are never recycled.  So
"creation fails exactly when all 26 letters are in use" is false. -/
theorem mask_capacity_counterexample :
    MaskReachable fullMinusA ∧
    createMask fullMinusA = none ∧
    fullMinusA.letters.length = 25 ∧
    (0 : ℕ) ∉ fullMinusA.letters :=
  ⟨MaskReachable.delete 0 (reachable_createN 26 initMasks MaskReachable.init),
   by decide, by decide, by decide⟩

/-- Witness for `mask_letters_unique_ordered_capacity` at the concrete
full state reached by 26 creations. -/
theorem mask_letters_witness :
    MaskReachable fullMasks ∧
    fullMasks.letters.Pairwise (· < ·) ∧
    (createMask fullMasks = none ↔ fullMasks.used = 26) :=
  ⟨reachable_createN 26 initMasks MaskReachable.init,
   (mask_letters_unique_ordered_capacity fullMasks
     (reachable_createN 26 initMasks MaskReachable.init)).1,
   (mask_letters_unique_ordered_capacity fullMasks
     (reachable_createN 26 initMasks MaskReachable.init)).2.2.2⟩

/-- A pointer position in display coordinates. -/
structure Pt where
  x : ℤ
  y : ℤ
deriving DecidableEq, Repr

/-- `MaskRegion` from `src/main.py`: letter, rectangle in image
coordinates, assigned text, style and rotation in degrees. -/
structure MaskRegion where
  letter : Char
  rect : Rect
  labelText : PyStr := []
  style : TextStyle := {}
  rotation : ℚ := 0
deriving DecidableEq

/-- The display mapping of `TemplateCanvas`: canvas origin plus the
image→display scale factors `sx = disp_w/iw`, `sy = disp_h/ih`. -/
structure Disp where
  canvasX : ℤ
  canvasY : ℤ
  sx : ℚ
  sy : ℚ
deriving DecidableEq

/-- Python `int(...)` on a float value: truncation toward zero. -/
def pyInt (q : ℚ) : ℤ := if 0 ≤ q then ⌊q⌋ else -⌊-q⌋

/-- The displayed box of a mask:
`rx = int(canvas.x + x*sx)`, …, `rw = int(w*sx)`, `rh = int(h*sy)`
(`_mask_hit_test` / `_handle_hit_test`, lines 649-675). -/
def dispRect (d : Disp) (r : Rect) : Rect :=
  ⟨pyInt ((d.canvasX : ℚ) + (r.x : ℚ) * d.sx),
   pyInt ((d.canvasY : ℚ) + (r.y : ℚ) * d.sy),
   pyInt ((r.w : ℚ) * d.sx),
   pyInt ((r.h : ℚ) * d.sy)⟩

/-- `QRect.contains(pos)` for rectangles of positive size: inside or on the
edge (closed coordinates `x … x+w-1`). -/
def rcontains (r : Rect) (p : Pt) : Bool :=
  decide (r.x ≤ p.x ∧ p.x ≤ r.x + r.w - 1 ∧ r.y ≤ p.y ∧ p.y ≤ r.y + r.h - 1)

/-- `_mask_hit_test`'s loop: return the index of the FIRST mask (in list
order) whose displayed bounding box contains the position. -/
def maskHitFrom (d : Disp) (p : Pt) : ℕ → List MaskRegion → Option ℕ
  | _, [] => none
  | i, m :: rest =>
      if rcontains (dispRect d m.rect) p then some i
      else maskHitFrom d p (i + 1) rest

/-- `_mask_hit_test(pos)` (lines 640-659). -/
def maskHitTest (d : Disp) (masks : List MaskRegion) (p : Pt) : Option ℕ :=
  maskHitFrom d p 0 masks

/-- The ten editor affordances of `_handle_hit_test`. -/
inductive Handle
  | nw | n | ne | e | se | s | sw | w | rotate | move
deriving DecidableEq, Repr

/-- `abs(px - pos.x()) <= tol and abs(py - pos.y()) <= tol`. -/
def near (px py tol : ℤ) (p : Pt) : Bool :=
  decide (|px - p.x| ≤ tol ∧ |py - p.y| ≤ tol)

/-- `_handle_hit_test(pos, mask_idx)` (lines 661-697): the eight box
handles (tolerance `handle_radius + 4 = 8`) in the code's order, then the
rotate handle 20 px above the top-center (tolerance `handle_radius + 6 =
10`), then the center move handle (tolerance 8). -/
def handleHitTest (d : Disp) (m : MaskRegion) (p : Pt) : Option Handle :=
  let b := dispRect d m.rect
  if near b.x b.y 8 p then some .nw
  else if near (b.x + pyFloorDiv b.w 2) b.y 8 p then some .n
  else if near (b.x + b.w) b.y 8 p then some .ne
  else if near (b.x + b.w) (b.y + pyFloorDiv b.h 2) 8 p then some .e
  else if near (b.x + b.w) (b.y + b.h) 8 p then some .se
  else if near (b.x + pyFloorDiv b.w 2) (b.y + b.h) 8 p then some .s
  else if near b.x (b.y + b.h) 8 p then some .sw
  else if near b.x (b.y + pyFloorDiv b.h 2) 8 p then some .w
  else if near (b.x + pyFloorDiv b.w 2) (b.y - 20) 10 p then some .rotate
  else if near (b.x + pyFloorDiv b.w 2) (b.y + pyFloorDiv b.h 2) 8 p then
    some .move
  else none

/-- The editor state fields touched by `mousePressEvent`. -/
structure EditorState where
  selected : Option ℕ
  editMode : Option Handle
  startPos : Option Pt
  startRect : Option Rect
  startRotation : Option ℚ
deriving DecidableEq

/-- The editor state with nothing selected. -/
def idleState : EditorState := ⟨none, none, none, none, none⟩

/-- `mousePressEvent` with manual masking off (lines 709-725): hit-test the
masks; on a hit, focus that mask, set the edit mode to whatever handle (if
any) is under the pointer, and record the start pointer position, start
rectangle and start rotation; on a miss, clear the selection and edit mode
(the recorded start fields are left as they were). -/
def mousePress (d : Disp) (masks : List MaskRegion) (prev : EditorState)
    (p : Pt) : EditorState :=
  match maskHitTest d masks p with
  | some i =>
      match masks[i]? with
      | some m => ⟨some i, handleHitTest d m p, some p, some m.rect,
          some m.rotation⟩
      | none => prev
  | none => ⟨none, none, prev.startPos, prev.startRect, prev.startRotation⟩

lemma maskHitFrom_map (d : Disp) (p : Pt) :
    ∀ (l : List MaskRegion) (k : ℕ),
      maskHitFrom d p k l = (maskHitFrom d p 0 l).map (· + k) := by
  intro l
  induction l with
  | nil => intro k; rfl
  | cons m rest ih =>
      intro k
      simp only [maskHitFrom]
      split
      · simp
      · rw [ih (k + 1), ih 1, Option.map_map]
        congr 1
        funext j
        simp
        omega

lemma pyInt_intCast (n : ℤ) : pyInt (n : ℚ) = n := by
  unfold pyInt
  split
  · exact Int.floor_intCast n
  · rw [← Int.cast_neg, Int.floor_intCast]
    omega

/-- At identity scale and canvas origin, the displayed box is the image
box. -/
lemma dispRect_one (r : Rect) : dispRect ⟨0, 0, 1, 1⟩ r = r := by
  cases r
  unfold dispRect
  simp [pyInt_intCast]

lemma maskHitTest_spec (d : Disp) (p : Pt) :
    ∀ (l : List MaskRegion) (i : ℕ), maskHitTest d l p = some i →
      ∃ m, l[i]? = some m ∧ rcontains (dispRect d m.rect) p = true ∧
        ∀ j m', j < i → l[j]? = some m' →
          rcontains (dispRect d m'.rect) p = false := by
  intro l
  induction l with
  | nil => intro i hi; cases hi
  | cons m rest ih =>
      intro i hi
      unfold maskHitTest maskHitFrom at hi
      split at hi
      · rename_i hc
        obtain rfl := Option.some_inj.mp hi
        exact ⟨m, by simp, hc, fun j m' hj _ => absurd hj (Nat.not_lt_zero j)⟩
      · rename_i hc
        rw [maskHitFrom_map] at hi
        cases hrest : maskHitFrom d p 0 rest with
        | none => rw [hrest] at hi; cases hi
        | some i' =>
            rw [hrest] at hi
            simp at hi
            obtain ⟨m', hm', hcon, hfirst⟩ := ih i' hrest
            refine ⟨m', ?_, hcon, ?_⟩
            · rw [← hi]
              simpa using hm'
            · intro j mj hj hmj
              cases j with
              | zero =>
                  simp at hmj
                  exact hmj ▸ (by simpa using hc)
              | succ j' =>
                  refine hfirst j' mj (by omega) ?_
                  simpa using hmj

/-- C6 counterexample: one mask with displayed box (100,100)–(199,199) at
identity scale; the pointer goes down exactly on the rotate handle at
(150, 80), which lies OUTSIDE the bounding box.  The claim says the mask is
focused and the editor enters the rotating state with the start data
recorded; the code hit-tests the bounding box first, finds nothing, and
clears the selection instead. -/
theorem press_rotate_handle_counterexample :
    handleHitTest ⟨0, 0, 1, 1⟩ ⟨'a', ⟨100, 100, 100, 100⟩, [], {}, 0⟩
      ⟨150, 80⟩ = some Handle.rotate ∧
    (mousePress ⟨0, 0, 1, 1⟩ [⟨'a', ⟨100, 100, 100, 100⟩, [], {}, 0⟩]
      idleState ⟨150, 80⟩).selected = none ∧
    (mousePress ⟨0, 0, 1, 1⟩ [⟨'a', ⟨100, 100, 100, 100⟩, [], {}, 0⟩]
      idleState ⟨150, 80⟩).editMode = none := by
  have hmask : maskHitTest ⟨0, 0, 1, 1⟩
      [⟨'a', ⟨100, 100, 100, 100⟩, [], {}, 0⟩] ⟨150, 80⟩ = none := by
    simp [maskHitTest, maskHitFrom, dispRect_one, rcontains]
  refine ⟨?_, ?_, ?_⟩
  · simp [handleHitTest, dispRect_one, near, pyFloorDiv, Int.fdiv]
  · simp [mousePress, hmask]
  · simp [mousePress, hmask]

/-- C6 amended: pointer-down (manual mode off) focuses the FIRST mask in
list order — not the topmost/last — whose displayed bounding box contains
the position, records the start pointer position, start rectangle and start
rotation, and enters the editing state of whatever handle of that mask is
under the position (`none` = pure focus); handles are only reachable inside
the focused mask's bounding box, so the rotate handle (which sits outside
the box) does not by itself trigger the rotating state; when no mask's box
contains the position, selection and edit mode are cleared. -/
theorem press_hit_semantics (d : Disp) (masks : List MaskRegion)
    (prev : EditorState) (p : Pt) :
    (∀ i, maskHitTest d masks p = some i →
      ∃ m, masks[i]? = some m ∧
        rcontains (dispRect d m.rect) p = true ∧
        (∀ j m', j < i → masks[j]? = some m' →
          rcontains (dispRect d m'.rect) p = false) ∧
        mousePress d masks prev p =
          ⟨some i, handleHitTest d m p, some p, some m.rect,
            some m.rotation⟩) ∧
    (maskHitTest d masks p = none →
      (mousePress d masks prev p).selected = none ∧
      (mousePress d masks prev p).editMode = none) := by
  constructor
  · intro i hi
    obtain ⟨m, hm, hcon, hfirst⟩ := maskHitTest_spec d p masks i hi
    refine ⟨m, hm, hcon, hfirst, ?_⟩
    simp only [mousePress, hi, hm]
  · intro hnone
    unfold mousePress
    rw [hnone]
    exact ⟨rfl, rfl⟩

/-- Witness for `press_hit_semantics`: two overlapping masks, pointer at
(60,60) inside both boxes — the first mask (index 0) wins, not the last,
and the start rectangle/rotation of mask 0 are recorded. -/
theorem press_hit_semantics_witness :
    maskHitTest ⟨0, 0, 1, 1⟩
      [⟨'a', ⟨0, 0, 100, 100⟩, [], {}, 0⟩,
       ⟨'b', ⟨50, 50, 100, 100⟩, [], {}, 0⟩] ⟨60, 60⟩ = some 0 ∧
    (mousePress ⟨0, 0, 1, 1⟩
      [⟨'a', ⟨0, 0, 100, 100⟩, [], {}, 0⟩,
       ⟨'b', ⟨50, 50, 100, 100⟩, [], {}, 0⟩] idleState ⟨60, 60⟩).selected =
      some 0 ∧
    (mousePress ⟨0, 0, 1, 1⟩
      [⟨'a', ⟨0, 0, 100, 100⟩, [], {}, 0⟩,
       ⟨'b', ⟨50, 50, 100, 100⟩, [], {}, 0⟩] idleState ⟨60, 60⟩).startRect =
      some ⟨0, 0, 100, 100⟩ := by
  -- the hit is the FIRST mask containing (60,60), index 0
  have hmask : maskHitTest ⟨0, 0, 1, 1⟩
      [⟨'a', ⟨0, 0, 100, 100⟩, [], {}, 0⟩,
       ⟨'b', ⟨50, 50, 100, 100⟩, [], {}, 0⟩] ⟨60, 60⟩ = some 0 := by
    simp [maskHitTest, maskHitFrom, dispRect_one, rcontains]
  have h := (press_hit_semantics ⟨0, 0, 1, 1⟩
    [⟨'a', ⟨0, 0, 100, 100⟩, [], {}, 0⟩,
     ⟨'b', ⟨50, 50, 100, 100⟩, [], {}, 0⟩] idleState ⟨60, 60⟩).1 0 hmask
  obtain ⟨m, hm, -, -, heq⟩ := h
  have hm' : m = ⟨'a', ⟨0, 0, 100, 100⟩, [], {}, 0⟩ := by
    simpa using hm.symm
  subst hm'
  rw [heq]
  exact ⟨hmask, rfl, rfl⟩

/-- Python's float `%` (sign of the divisor): `x % m = x - m * floor(x/m)`,
modelled over exact rationals. -/
def pyFloatMod (x m : ℚ) : ℚ := x - m * ⌊x / m⌋

/-- The rotate-drag update of `mouseMoveEvent` (lines 780-796):
`rotation = (start_rotation + degrees(angle2 - angle1)) % 360`, where
`angle1`/`angle2` are the `np.arctan2` angles (in degrees) from the
rectangle's display-space center to the drag-start pointer and to the
current pointer.  The trigonometric measurement is floating-point and is
abstracted as the two degree-valued inputs. -/
def rotationAfterDrag (startRot a1 a2 : ℚ) : ℚ :=
  pyFloatMod (startRot + (a2 - a1)) 360

/-- C9: the rotation after a rotate drag equals
`(start + (angle2 - angle1)) mod 360`, always lies in `[0, 360)`, and a
90° swept angle from start rotation 0 yields exactly 90 — independent of
the display scale, which enters only through the two angle measurements
whose difference is the swept angle. -/
theorem rotation_formula_range_ninety :
    (∀ startRot a1 a2 : ℚ,
      rotationAfterDrag startRot a1 a2 =
        (startRot + (a2 - a1)) - 360 * ⌊(startRot + (a2 - a1)) / 360⌋ ∧
      0 ≤ rotationAfterDrag startRot a1 a2 ∧
      rotationAfterDrag startRot a1 a2 < 360) ∧
    rotationAfterDrag 0 0 90 = 90 := by
  constructor
  · intro startRot a1 a2
    refine ⟨rfl, ?_, ?_⟩
    · unfold rotationAfterDrag pyFloatMod
      have h := Int.floor_le ((startRot + (a2 - a1)) / 360)
      have h360 : (0 : ℚ) < 360 := by norm_num
      have := (div_le_div_iff_of_pos_right h360).mpr h
      have hle : (⌊(startRot + (a2 - a1)) / 360⌋ : ℚ) * 360 ≤
          startRot + (a2 - a1) := by
        have := mul_le_mul_of_nonneg_right h (le_of_lt h360)
        rwa [div_mul_cancel₀ _ (ne_of_gt h360)] at this
      linarith
    · unfold rotationAfterDrag pyFloatMod
      have h := Int.lt_floor_add_one ((startRot + (a2 - a1)) / 360)
      have h360 : (0 : ℚ) < 360 := by norm_num
      have hlt : startRot + (a2 - a1) <
          ((⌊(startRot + (a2 - a1)) / 360⌋ : ℚ) + 1) * 360 := by
        have := mul_lt_mul_of_pos_right h h360
        rwa [div_mul_cancel₀ _ (ne_of_gt h360)] at this
      linarith
  · unfold rotationAfterDrag pyFloatMod
    have : ⌊(0 + (90 - 0) : ℚ) / 360⌋ = 0 := by
      rw [Int.floor_eq_zero_iff]
      constructor <;> norm_num
    rw [this]
    norm_num

end CertTool
